import Mathlib

/-!
Verification of the manifest assembly pipeline of `webpack-manifest-plugin`
(`src/lib/plugin.js`), shallowly embedded in Lean 4.

JavaScript strings are `String`, JS arrays are `List`, JS plain objects used
as string-keyed maps are association lists `List (String × String)` with the
JS property-assignment semantics (update in place if the key exists, append
otherwise).  Functions-valued options (`filter`, `map`, `sort`, `generate`,
the `transformExtensions` regex test) are Lean functions.
-/

/-- Helper for `strIncludes`: does `pat` occur in `l` (as a contiguous run)? -/
def listIncludes (pat : List Char) : List Char → Bool
  | [] => pat.isPrefixOf []
  | c :: cs => pat.isPrefixOf (c :: cs) || listIncludes pat cs

/-- JS `str.includes(pat)`: substring containment. -/
def strIncludes (s pat : String) : Bool :=
  listIncludes pat.data s.data

/-- JS `str.split(sep)` for a one-character separator, over the char list. -/
def splitOnChar (sep : Char) : List Char → List (List Char)
  | [] => [[]]
  | c :: cs =>
    match splitOnChar sep cs with
    | [] => [[c]]
    | h :: t => if c = sep then [] :: h :: t else (c :: h) :: t

/-- JS line terminators, which `.` in a regex does not match. -/
def isLineTerminator (c : Char) : Bool :=
  c = '\n' || c = '\r' || c.val = 0x2028 || c.val = 0x2029

/-- Core of `str.replace(/\?.*/, '')`: delete the first `'?'` together with
every following character up to (excluding) the next line terminator. -/
def stripQueryList : List Char → List Char
  | [] => []
  | c :: cs =>
    if c = '?' then cs.dropWhile (fun d => !isLineTerminator d)
    else c :: stripQueryList cs

/-- `str = str.replace(/\?.*/, '')` from `getFileType` (plugin.js line 24). -/
def stripQuery (s : String) : String :=
  ⟨stripQueryList s.data⟩

/-- `file.name.replace(/\\/g, '/')`: every backslash becomes a forward slash. -/
def slashify (s : String) : String :=
  ⟨s.data.map (fun c => if c = '\\' then '/' else c)⟩

/-- Default `transformExtensions: /^(gz|map)$/i` as a whole-string test.
The alternatives are ASCII, so ASCII case folding is exact here. -/
def defaultTransformExtensions (ext : String) : Bool :=
  ext.data.map Char.toLower == "gz".data || ext.data.map Char.toLower == "map".data

/-- `ManifestPlugin.prototype.getFileType` (plugin.js lines 23-31):
strip the query string, split on `'.'`, pop the last component; if the
configured `transformExtensions` test accepts it, pop once more and join the
two with a dot.  JS `[].pop()` yields `undefined`, which string concatenation
renders as `"undefined"`; the empty-remainder branch mirrors that. -/
def getFileType (te : String → Bool) (str : String) : String :=
  match (splitOnChar '.' (stripQuery str).data).reverse with
  | [] => "undefined"
  | ext :: rest =>
    if te ⟨ext⟩ then
      match rest with
      | [] => "undefined." ++ (⟨ext⟩ : String)
      | e2 :: _ => (⟨e2⟩ : String) ++ "." ++ (⟨ext⟩ : String)
    else ⟨ext⟩

/-- One normalized build-output record (the objects built in `emit`). -/
structure FileDescriptor where
  path : String
  name : String
  isInitial : Bool
  isChunk : Bool
  isAsset : Bool
  isModuleAsset : Bool
  deriving DecidableEq, Repr

/-- A webpack chunk as `emit` consumes it: an (optional) name, the list of
emitted files, and the eager-load flag.  The source probes three host API
generations (`isOnlyInitial()` / `isInitial()` / `.initial`) for the same
boolean; the embedding keeps the single flag. -/
structure Chunk where
  name : Option String
  files : List String
  initial : Bool
  deriving DecidableEq, Repr

/-- An entry of `stats.assets`: output name plus the chunks referencing it
(only emptiness of that list matters to `emit`). -/
structure Asset where
  name : String
  chunks : List Nat
  deriving DecidableEq, Repr

/-- The default-generator manifest value: a JS object as an assoc list. -/
abbrev Manifest := List (String × String)

/-- The `seed` option.  `.obj m` is an object (always truthy in JS);
`.falsy` stands for any falsy value (`null`, `undefined`, `false`, `0`,
`''`), all of which `this.opts.seed || {}` replaces by a fresh `{}`. -/
inductive SeedOption where
  | obj (m : Manifest)
  | falsy
  deriving Repr

/-- `const seed = this.opts.seed || {}` (plugin.js line 34). -/
def applySeed : SeedOption → Manifest
  | .obj m => m
  | .falsy => []

/-- Plugin options after the `_.assign` of the constructor with defaults.
`fileName`, `writeToFileEmit` and `serialize` only affect serialization and
physical output, which stay outside the manifest-value model. -/
structure Opts where
  basePath : String
  fileName : String
  transformExtensions : String → Bool
  writeToFileEmit : Bool
  seed : SeedOption
  filter : Option (FileDescriptor → Bool)
  map : Option (FileDescriptor → FileDescriptor)
  generate : Option (Manifest → List FileDescriptor → Manifest)
  sort : Option (FileDescriptor → FileDescriptor → Int)

/-- The constructor defaults (plugin.js lines 9-20). -/
def defaultOpts : Opts where
  basePath := ""
  fileName := "manifest.json"
  transformExtensions := defaultTransformExtensions
  writeToFileEmit := false
  seed := .falsy
  filter := none
  map := none
  generate := none
  sort := none

/-- JS truthiness of a possibly-absent string (`undefined` and `''` falsy). -/
def jsTruthy : Option String → Bool
  | some s => s ≠ ""
  | none => false

/-- The string value behind a possibly-absent option (`undefined` reads back
as the empty string once it has passed a truthiness guard). -/
def jsStrOr (o : Option String) : String :=
  match o with
  | some s => s
  | none => ""

/-- JS property read `m[k]` as `undefined`-or-value: the first binding of
`k` (JS objects never bind a key twice). -/
def objGet : Manifest → String → Option String
  | [], _ => none
  | p :: m, k => if p.1 = k then some p.2 else objGet m k

/-- JS `Object.prototype.hasOwnProperty`-style key test. -/
def objHas (m : Manifest) (k : String) : Bool :=
  m.any (fun p => p.1 = k)

/-- JS property assignment `m[k] = v` on an object represented as an assoc
list: overwrite in place when the key is present, append otherwise. -/
def objSet (m : Manifest) (k v : String) : Manifest :=
  if objHas m k then m.map (fun p => if p.1 = k then (k, v) else p)
  else m ++ [(k, v)]

/-- One chunk-file descriptor (plugin.js lines 48-71).  `chunk.name` is
tested for truthiness (`chunk.name ? chunk.name : null`), so an
empty-string name takes the nameless branch. -/
def chunkFileDescriptor (te : String → Bool) (c : Chunk) (p : String) :
    FileDescriptor :=
  { path := p
    name := match c.name with
      | some n => if n ≠ "" then n ++ "." ++ getFileType te p else p
      | none => p
    isInitial := c.initial
    isChunk := true
    isAsset := false
    isModuleAsset := false }

/-- The chunk scan: `compilation.chunks.reduce(... chunk.files.reduce ...)`
(plugin.js lines 48-72), appending one descriptor per chunk file. -/
def collectChunks (te : String → Bool) (chunks : List Chunk) :
    List FileDescriptor :=
  chunks.foldl
    (fun files c =>
      c.files.foldl (fun files p => files ++ [chunkFileDescriptor te c p]) files)
    []

/-- The asset scan: `stats.assets.reduce(...)` (plugin.js lines 76-102),
starting from the chunk descriptors.  `moduleAssets[asset.name]` is an
assoc-list lookup, guarded by JS truthiness (`if (name)`). -/
def collectAssets (ma : List (String × String)) (assets : List Asset)
    (init : List FileDescriptor) : List FileDescriptor :=
  assets.foldl
    (fun files a =>
      let name := objGet ma a.name
      if jsTruthy name then
        files ++ [{ path := a.name
                    name := jsStrOr name
                    isInitial := false
                    isChunk := false
                    isAsset := true
                    isModuleAsset := true }]
      else if a.chunks.length > 0 then
        files
      else
        files ++ [{ path := a.name
                    name := a.name
                    isInitial := false
                    isChunk := false
                    isAsset := true
                    isModuleAsset := false }])
    init

/-- JS `Array.prototype.sort` with a numeric comparator, modelled as a
stable merge sort keeping `a` before `b` whenever `cmp a b ≤ 0`. -/
def sortJS (cmp : FileDescriptor → FileDescriptor → Int)
    (l : List FileDescriptor) : List FileDescriptor :=
  l.mergeSort (fun a b => decide (cmp a b ≤ 0))

/-- `files.filter(file => !file.path.includes('hot-update'))`
(plugin.js lines 104-105). -/
def hotFilter (files : List FileDescriptor) : List FileDescriptor :=
  files.filter (fun f => !strIncludes f.path "hot-update")

/-- The normalization pass (plugin.js lines 109-130): prepend a truthy
`basePath` to every name, prepend a truthy `publicPath` to every path, then
replace every backslash by a forward slash in both fields. -/
def normalizeStage (bp : String) (publicPath : Option String)
    (files : List FileDescriptor) : List FileDescriptor :=
  let files :=
    if bp ≠ "" then
      files.map (fun f => { f with name := bp ++ f.name })
    else files
  let files :=
    if jsTruthy publicPath then
      files.map (fun f => { f with path := jsStrOr publicPath ++ f.path })
    else files
  files.map
    (fun f => { f with name := slashify f.name, path := slashify f.path })

/-- The optional user stages (plugin.js lines 132-142): `filter`, then
`map`, then `sort`, each skipped when not configured. -/
def transformPipeline (opts : Opts) (files : List FileDescriptor) :
    List FileDescriptor :=
  let files :=
    match opts.filter with
    | some p => files.filter p
    | none => files
  let files :=
    match opts.map with
    | some g => files.map g
    | none => files
  match opts.sort with
  | some cmp => sortJS cmp files
  | none => files

/-- Everything `emit` does to the collected descriptor list before the
generator step (plugin.js lines 104-142), in source order. -/
def postCollect (opts : Opts) (publicPath : Option String)
    (files : List FileDescriptor) : List FileDescriptor :=
  transformPipeline opts (normalizeStage opts.basePath publicPath (hotFilter files))

/-- The generator step (plugin.js lines 144-154): a configured `generate`
is called with `(seed, files)`; otherwise the default fold assigns
`manifest[file.name] = file.path` over the seed. -/
def generateStep (opts : Opts) (seed : Manifest)
    (files : List FileDescriptor) : Manifest :=
  match opts.generate with
  | some g => g seed files
  | none => files.foldl (fun m f => objSet m f.name f.path) seed

/-- One completed compilation as `emit` reads it: the declared public path
(`compilation.options.output.publicPath`, possibly absent), the chunk list
and the stats asset list. -/
structure Build where
  publicPath : Option String
  chunks : List Chunk
  assets : List Asset

/-- The manifest value computed by one `emit` call (plugin.js lines 43-154),
given the plugin options, the module-asset registry accumulated so far and
the current seed object.  Serialization and the physical write are outside
the model. -/
def emitManifest (opts : Opts) (ma : List (String × String))
    (seed : Manifest) (b : Build) : Manifest :=
  generateStep opts seed
    (postCollect opts b.publicPath
      (collectAssets ma b.assets (collectChunks opts.transformExtensions b.chunks)))

/-- N sequential compilations against one plugin seed: `apply` fixes
`seed = this.opts.seed || {}` once, and every build's default fold mutates
that same object, modelled as threading the manifest through the folds.
Each build carries the module-asset registry in force when it emits. -/
def runBuilds (opts : Opts) (builds : List (List (String × String) × Build)) :
    Manifest :=
  builds.foldl (fun m p => emitManifest opts p.1 m p.2) (applySeed opts.seed)

/-- The asset-scan decision for one asset, as an `Option` descriptor: the
three-way branch of plugin.js lines 76-102 (module asset / entry asset
skipped / plain asset). -/
def assetDescriptor (ma : List (String × String)) (a : Asset) :
    Option FileDescriptor :=
  let name := objGet ma a.name
  if jsTruthy name then
    some { path := a.name
           name := jsStrOr name
           isInitial := false
           isChunk := false
           isAsset := true
           isModuleAsset := true }
  else if a.chunks.length > 0 then
    none
  else
    some { path := a.name
           name := a.name
           isInitial := false
           isChunk := false
           isAsset := true
           isModuleAsset := false }

/-- The asset-scan decision as the specification words it: a registry entry
keyed by the asset's path makes a module-asset descriptor, an asset
referenced by one or more chunks is skipped, anything else becomes a plain
asset descriptor. -/
def assetDescriptorSpec (ma : List (String × String)) (a : Asset) :
    Option FileDescriptor :=
  match objGet ma a.name with
  | some n =>
    some { path := a.name
           name := n
           isInitial := false
           isChunk := false
           isAsset := true
           isModuleAsset := true }
  | none =>
    if a.chunks.length > 0 then none
    else
      some { path := a.name
             name := a.name
             isInitial := false
             isChunk := false
             isAsset := true
             isModuleAsset := false }

/-- The chunk-file descriptor exactly as the specification words it, for
chunks whose name is not the (falsy) empty string: a named chunk maps to
`chunkName + '.' + fileType(path)`, a nameless one to the path verbatim. -/
def chunkDescriptorSpec (te : String → Bool) (c : Chunk) (p : String) :
    FileDescriptor :=
  { path := p
    name := match c.name with
      | some n => n ++ "." ++ getFileType te p
      | none => p
    isInitial := c.initial
    isChunk := true
    isAsset := false
    isModuleAsset := false }

/-- A build that emits exactly one chunk with one output file, as in the
multi-compilation scenario of the spec (and the repository's
multiple-compilation test). -/
def singleChunkBuild (n f : String) (b : Bool) : Build :=
  { publicPath := none
    chunks := [{ name := some n, files := [f], initial := b }]
    assets := [] }

/-- The manifest key such a build contributes under default options. -/
def manifestKeyOf (n f : String) : String :=
  slashify (n ++ "." ++ getFileType defaultTransformExtensions f)

/-!
The finalization coordinator (plugin.js lines 6 and 174-189): a
process-wide `mutexify` lock; each build's `emit`, after registering its
artifact, runs `lock(release => ...)`.  The lock callback registers an
`after-emit` handler on the compiler (which calls `release` and the
after-emit continuation) and invokes the downstream
`webpack-manifest-plugin-after-emit` waterfall, whose final continuation is
the emit-phase callback.  The model below follows the async-plugin branch,
where that continuation exists; an `after-emit` event runs every handler
registered so far, exactly as compiler-level plugin registration behaves.
The observable history is a trace of actions.
-/

/-- Observable actions of the finalization coordinator. -/
inductive CAction where
  | emitStart (b : Nat)
  | notify (b : Nat)
  | contInvoked (b : Nat)
  | afterEmitFired (b : Nat)
  | releaseCalled (b : Nat)
  deriving DecidableEq, Repr

/-- Coordinator state: the `mutexify` lock (`used` flag plus FIFO waiter
queue), the compiler-level after-emit handlers registered so far (by owning
build), and the action trace. -/
structure CState where
  lockUsed : Bool
  lockQueue : List Nat
  handlers : List Nat
  trace : List CAction
  deriving DecidableEq, Repr

/-- The body of `lock(release => ...)` for build `b`: register the
after-emit handler, then invoke the downstream waterfall (Notifying) whose
final continuation is the emit callback. -/
def lockCallback (b : Nat) (s : CState) : CState :=
  { s with
    handlers := s.handlers ++ [b]
    trace := s.trace ++ [CAction.notify b, CAction.contInvoked b] }

/-- `mutexify` acquisition: run the callback at once if the lock is free,
otherwise join the FIFO queue. -/
def lockAcquire (b : Nat) (s : CState) : CState :=
  if s.lockUsed then { s with lockQueue := s.lockQueue ++ [b] }
  else lockCallback b { s with lockUsed := true }

/-- `mutexify` release, called by build `owner`'s after-emit handler: hand
the lock to the next queued waiter (running its callback), or free it. -/
def releaseRun (owner : Nat) (s : CState) : CState :=
  let s := { s with trace := s.trace ++ [CAction.releaseCalled owner] }
  match s.lockQueue with
  | [] => { s with lockUsed := false }
  | next :: rest => lockCallback next { s with lockQueue := rest }

/-- Run a snapshot of the registered after-emit handlers in order. -/
def runHandlers : List Nat → CState → CState
  | [], s => s
  | o :: os, s => runHandlers os (releaseRun o s)

/-- External events driven by the host: build `b`'s emit phase reaching the
`lock(...)` call, and build `b`'s after-emit event. -/
inductive CEvent where
  | emitPhase (b : Nat)
  | afterEmitPhase (b : Nat)

/-- One event step. -/
def stepEvent (e : CEvent) (s : CState) : CState :=
  match e with
  | .emitPhase b => lockAcquire b { s with trace := s.trace ++ [CAction.emitStart b] }
  | .afterEmitPhase b =>
    runHandlers s.handlers { s with trace := s.trace ++ [CAction.afterEmitFired b] }

/-- Run a whole event script from the pristine process state. -/
def runScript (evs : List CEvent) : CState :=
  evs.foldl (fun s e => stepEvent e s) { lockUsed := false, lockQueue := [], handlers := [], trace := [] }

/-- Two non-overlapping builds: each completes fully before the next. -/
def seqScript : List CEvent :=
  [CEvent.emitPhase 1, CEvent.afterEmitPhase 1, CEvent.emitPhase 2, CEvent.afterEmitPhase 2]

/-- Two overlapping builds: both reach the lock before the first finalizes. -/
def overlapScript : List CEvent :=
  [CEvent.emitPhase 1, CEvent.emitPhase 2, CEvent.afterEmitPhase 1, CEvent.afterEmitPhase 2]

/-- In `tr`, the first `notify b2` comes strictly after the first
`releaseCalled b1` (both present). -/
def notifyAfterFirstRelease (tr : List CAction) (b1 b2 : Nat) : Bool :=
  match tr.indexOf? (CAction.releaseCalled b1), tr.indexOf? (CAction.notify b2) with
  | some i, some j => i < j
  | _, _ => false

/-- Event markers in a trace (the actions stamped when a host event lands). -/
def isEventMarker : CAction → Bool
  | .emitStart _ => true
  | .afterEmitFired _ => true
  | _ => false

/-- Every `releaseCalled o` in `tr` happens during an after-emit event (the
nearest preceding event marker is `afterEmitFired`) and only after build
`o`'s downstream continuation was invoked. -/
def releasesGuarded (tr : List CAction) : Bool :=
  (List.range tr.length).all (fun i =>
    match tr[i]? with
    | some (CAction.releaseCalled o) =>
      (match ((List.range i).filter (fun j =>
          match tr[j]? with
          | some a => isEventMarker a
          | none => false)).getLast? with
       | some j =>
         (match tr[j]? with
          | some (CAction.afterEmitFired _) => true
          | _ => false)
       | none => false)
      && (List.range i).any (fun j => tr[j]? == some (CAction.contInvoked o))
    | _ => true)

example : getFileType defaultTransformExtensions "bundle.js.gz" = "js.gz" := by decide
example : getFileType defaultTransformExtensions "bundle.js.map" = "js.map" := by decide
example : getFileType defaultTransformExtensions "bundle.css" = "css" := by decide
example : getFileType defaultTransformExtensions "a.js?q=1" = "js" := by decide

example :
    emitManifest defaultOpts [] []
      { publicPath := none
        chunks := [{ name := some "main", files := ["main.js"], initial := true }]
        assets := [{ name := "main.js", chunks := [0] }] }
    = [("main.js", "main.js")] := by decide

/-- C2: for two builds completing in one process, finalization is
serialized by the process-wide FIFO mutex: whether the builds are
sequential or overlapping, the second build's Notifying phase (the
downstream-hook invocation) never begins before the first build's lock
release, and every lock release happens during a later after-emit event,
after the releasing build's downstream continuation was invoked. -/
theorem coordinator_serializes_finalization :
    (notifyAfterFirstRelease (runScript seqScript).trace 1 2 = true
      ∧ releasesGuarded (runScript seqScript).trace = true)
    ∧ (notifyAfterFirstRelease (runScript overlapScript).trace 1 2 = true
      ∧ releasesGuarded (runScript overlapScript).trace = true) := by
  decide

/-- C3: `getFileType` first strips the query string; whenever the stripped
path has at least two dot-separated components, the result is the final
extension, or the two final extensions joined by a dot when the last one
matches the configured test; with the default test, `bundle.js.gz` yields
`js.gz`, `bundle.js.map` yields `js.map`, and `bundle.css` yields `css`. -/
theorem getFileType_strip_query_extension :
    (∀ (te : String → Bool) (s : String) (ext e2 : List Char)
        (rest : List (List Char)),
        (splitOnChar '.' (stripQuery s).data).reverse = ext :: e2 :: rest →
        getFileType te s =
          if te ⟨ext⟩ then (⟨e2⟩ : String) ++ "." ++ (⟨ext⟩ : String)
          else ⟨ext⟩)
    ∧ getFileType defaultTransformExtensions "bundle.js.gz" = "js.gz"
    ∧ getFileType defaultTransformExtensions "bundle.js.map" = "js.map"
    ∧ getFileType defaultTransformExtensions "bundle.css" = "css" := by
  refine ⟨?_, by decide, by decide, by decide⟩
  intro te s ext e2 rest h
  simp [getFileType, h]

/-- Witness for the universally quantified part of the C3 theorem. -/
theorem getFileType_strip_query_extension_witness :
    (splitOnChar '.' (stripQuery "x.y.gz").data).reverse
        = ['g', 'z'] :: ['y'] :: [['x']]
    ∧ getFileType defaultTransformExtensions "x.y.gz"
        = (if defaultTransformExtensions ⟨['g', 'z']⟩ then
            ((⟨['y']⟩ : String) ++ "." ++ (⟨['g', 'z']⟩ : String))
          else ⟨['g', 'z']⟩) :=
  ⟨by decide,
   getFileType_strip_query_extension.1 defaultTransformExtensions "x.y.gz"
     ['g', 'z'] ['y'] [['x']] (by decide)⟩

/-- C4: hot-update descriptors are dropped before normalization and before
the transform pipeline: the post-collection processing is unchanged by
pre-dropping them (for every configuration of filter/map/sort, base path
and public path), and nothing surviving the drop mentions the marker. -/
theorem hot_update_descriptors_never_reach_manifest
    (opts : Opts) (pp : Option String) (files : List FileDescriptor) :
    postCollect opts pp files = postCollect opts pp (hotFilter files)
    ∧ (hotFilter files).all (fun f => !strIncludes f.path "hot-update") = true := by
  constructor
  · simp [postCollect, hotFilter, List.filter_filter]
  · simp only [hotFilter, List.all_eq_true]
    intro f hf
    exact (List.mem_filter.mp hf).2

/-- C5: the normalization pass is one order-preserving map: it prepends the
base path to every name, prepends the declared public path to every path,
and only then replaces every backslash by a forward slash in both fields. -/
theorem normalize_pure_order_preserving
    (bp : String) (pp : Option String) (files : List FileDescriptor) :
    normalizeStage bp pp files
      = files.map (fun f =>
          { f with
            name := slashify (bp ++ f.name)
            path := slashify (jsStrOr pp ++ f.path) }) := by
  have hstr : ∀ (o : Option String), jsTruthy o = false → jsStrOr o = "" := by
    intro o h
    cases o with
    | none => rfl
    | some s =>
      simp [jsTruthy] at h
      simp [jsStrOr, h]
  unfold normalizeStage
  rcases eq_or_ne bp "" with hbp | hbp
  · cases hpp : jsTruthy pp
    · simp [hbp, hpp, hstr pp hpp, List.map_map, String.empty_append]
    · simp [hbp, hpp, List.map_map, String.empty_append]
  · cases hpp : jsTruthy pp
    · simp [hbp, hpp, hstr pp hpp, List.map_map, String.empty_append]
    · simp [hbp, hpp, List.map_map, String.empty_append]

/-- C8: a configured generator is called with the seed and the
post-pipeline descriptor sequence and its return value is the manifest
verbatim; in particular a constant generator makes the manifest that
constant whatever the build produced. -/
theorem custom_generate_used_verbatim
    (opts : Opts) (g : Manifest → List FileDescriptor → Manifest)
    (ma : List (String × String)) (seed : Manifest) (b : Build) :
    emitManifest { opts with generate := some g } ma seed b
      = g seed (postCollect { opts with generate := some g } b.publicPath
          (collectAssets ma b.assets
            (collectChunks opts.transformExtensions b.chunks)))
    ∧ ∀ (c : Manifest),
        emitManifest { opts with generate := some (fun _ _ => c) } ma seed b
          = c :=
  ⟨rfl, fun _ => rfl⟩

theorem foldl_append_singleton {α β : Type} (g : α → β) :
    ∀ (l : List α) (init : List β),
      l.foldl (fun acc x => acc ++ [g x]) init = init ++ l.map g
  | [], _ => by simp
  | x :: xs, init => by
    simp only [List.foldl_cons, List.map_cons]
    rw [foldl_append_singleton g xs]
    simp

theorem collectChunks_eq (te : String → Bool) (chunks : List Chunk) :
    collectChunks te chunks
      = (chunks.map (fun c => c.files.map (chunkFileDescriptor te c))).flatten := by
  suffices h : ∀ (cs : List Chunk) (init : List FileDescriptor),
      cs.foldl
        (fun files c =>
          c.files.foldl (fun fs p => fs ++ [chunkFileDescriptor te c p]) files)
        init
      = init ++ (cs.map (fun c => c.files.map (chunkFileDescriptor te c))).flatten by
    simpa [collectChunks] using h chunks []
  intro cs
  induction cs with
  | nil => intro init; simp
  | cons c cs ih =>
    intro init
    simp only [List.foldl_cons, List.map_cons, List.flatten_cons]
    rw [foldl_append_singleton (chunkFileDescriptor te c) c.files init, ih]
    simp

theorem collectAssets_eq (ma : List (String × String)) :
    ∀ (assets : List Asset) (init : List FileDescriptor),
      collectAssets ma assets init = init ++ assets.filterMap (assetDescriptor ma)
  | [], init => by simp [collectAssets]
  | a :: as, init => by
    have ih := collectAssets_eq ma as
    by_cases h1 : jsTruthy (objGet ma a.name) = true
    · simp only [collectAssets, List.foldl_cons] at ih ⊢
      simp [assetDescriptor, h1, List.filterMap_cons, ih, List.append_assoc]
    · by_cases h2 : a.chunks.length > 0
      · simp only [collectAssets, List.foldl_cons] at ih ⊢
        simp [assetDescriptor, h1, h2, List.filterMap_cons, ih]
      · simp only [collectAssets, List.foldl_cons] at ih ⊢
        simp [assetDescriptor, h1, h2, List.filterMap_cons, ih, List.append_assoc]

theorem objGet_eq_some_mem :
    ∀ (m : Manifest) (k v : String), objGet m k = some v → (k, v) ∈ m
  | p :: m, k, v, h => by
    by_cases hp : p.1 = k
    · simp only [objGet, if_pos hp] at h
      have hpkv : p = (k, v) := by
        cases p
        simp_all
      rw [← hpkv]
      exact List.mem_cons_self _ _
    · simp only [objGet, if_neg hp] at h
      exact List.mem_cons_of_mem _ (objGet_eq_some_mem m k v h)

theorem objHas_eq_isSome : ∀ (m : Manifest) (k : String),
    objHas m k = (objGet m k).isSome
  | [], _ => rfl
  | p :: m, k => by
    have ih := objHas_eq_isSome m k
    simp only [objHas] at ih ⊢
    by_cases hp : p.1 = k <;> simp [objGet, hp, List.any_cons, ih]

theorem objGet_map_update : ∀ (m : Manifest) (k v q : String),
    objGet (m.map (fun p => if p.1 = k then (k, v) else p)) q
      = if q = k then (if m.any (fun p => p.1 = k) then some v else none)
        else objGet m q
  | [], k, v, q => by simp [objGet]
  | p :: m, k, v, q => by
    by_cases hp : p.1 = k
    · by_cases hq : q = k
      · subst hq
        simp [objGet, hp, List.any_cons]
      · have hkq : ¬(k = q) := fun h => hq h.symm
        simp [objGet, hp, hq, hkq, objGet_map_update m k v q, List.any_cons]
    · by_cases hq : q = k
      · subst hq
        simp only [List.map_cons, if_neg hp, objGet, List.any_cons]
        rw [if_pos trivial, objGet_map_update m q v q, if_pos rfl]
        refine if_congr ?_ rfl rfl
        cases hm : m.any (fun x => decide (x.1 = q))
        · simp [hp]
        · simp
      · by_cases hpq : p.1 = q
        · simp [objGet, hp, hq, hpq, List.any_cons]
        · simp [objGet, hp, hq, hpq, objGet_map_update m k v q, List.any_cons]

theorem objGet_append_fresh :
    ∀ (m : Manifest) (k v q : String), objHas m k = false →
      objGet (m ++ [(k, v)]) q = if q = k then some v else objGet m q
  | [], k, v, q, _ => by
    by_cases hq : q = k
    · simp [objGet, hq]
    · have : ¬(k = q) := fun h => hq h.symm
      simp [objGet, hq, this]
  | p :: m, k, v, q, h => by
    rw [objHas, List.any_cons] at h
    rcases Bool.or_eq_false_iff.mp h with ⟨ha, hb⟩
    have h1 : ¬(p.1 = k) := by simpa using ha
    have h2 : objHas m k = false := hb
    by_cases hpq : p.1 = q
    · have hqk : ¬(q = k) := by
        intro he
        exact h1 (by rw [hpq, he])
      simp [objGet, hpq, hqk]
    · simp only [List.cons_append, objGet, if_neg hpq]
      exact objGet_append_fresh m k v q h2

theorem objGet_objSet (m : Manifest) (k v q : String) :
    objGet (objSet m k v) q = if q = k then some v else objGet m q := by
  unfold objSet
  by_cases hany : objHas m k
  · simp only [if_pos hany]
    rw [objGet_map_update m k v q]
    by_cases hq : q = k
    · subst hq
      simp only [if_pos rfl]
      simp only [objHas] at hany
      simp [hany]
    · simp [hq]
  · simp only [hany, if_false, Bool.false_eq_true]
    exact objGet_append_fresh m k v q (by simpa using hany)

theorem objSet_fresh (m : Manifest) (k v : String) (h : objHas m k = false) :
    objSet m k v = m ++ [(k, v)] := by
  simp [objSet, h]

/-- C6: the chunk scan emits, for every chunk and each of its files, one
descriptor whose name is `chunkName + '.' + fileType(path)` for a named
chunk and the path verbatim for a nameless one, with `isChunk`,
`isAsset=false`, `isModuleAsset=false`, and `isInitial` from the chunk's
eager-load flag, in chunk-then-file iteration order. -/
theorem chunk_scan_descriptors (te : String → Bool) (chunks : List Chunk)
    (h : ∀ c ∈ chunks, c.name ≠ some "") :
    collectChunks te chunks
      = (chunks.map (fun c => c.files.map (chunkDescriptorSpec te c))).flatten := by
  rw [collectChunks_eq]
  congr 1
  apply List.map_congr_left
  intro c hc
  apply List.map_congr_left
  intro p _
  cases hn : c.name with
  | none => simp [chunkFileDescriptor, chunkDescriptorSpec, hn]
  | some n =>
    have hne : n ≠ "" := by
      intro he
      exact h c hc (by rw [hn, he])
    simp [chunkFileDescriptor, chunkDescriptorSpec, hn, hne]

/-- Witness for the C6 theorem at a two-chunk build. -/
theorem chunk_scan_descriptors_witness :
    (∀ c ∈ [({ name := some "main", files := ["main.js", "main.js.map"], initial := true } : Chunk),
            { name := none, files := ["1.js"], initial := false }],
        c.name ≠ some "")
    ∧ collectChunks defaultTransformExtensions
        [{ name := some "main", files := ["main.js", "main.js.map"], initial := true },
         { name := none, files := ["1.js"], initial := false }]
      = (([({ name := some "main", files := ["main.js", "main.js.map"], initial := true } : Chunk),
           { name := none, files := ["1.js"], initial := false }]).map
          (fun c => c.files.map (chunkDescriptorSpec defaultTransformExtensions c))).flatten :=
  ⟨by decide, chunk_scan_descriptors defaultTransformExtensions _ (by decide)⟩

/-- C7: the asset scan appends, after all chunk descriptors and in asset
iteration order, a module-asset descriptor when the registry knows the
asset's path, nothing when the asset is chunk-referenced, and a plain asset
descriptor otherwise (given that registered module-asset names are
non-empty, which the registry construction guarantees). -/
theorem asset_scan_descriptors (ma : List (String × String))
    (hma : ∀ p ∈ ma, p.2 ≠ "") (assets : List Asset)
    (init : List FileDescriptor) :
    collectAssets ma assets init
      = init ++ assets.filterMap (assetDescriptorSpec ma) := by
  rw [collectAssets_eq]
  have hpt : ∀ (a : Asset), assetDescriptor ma a = assetDescriptorSpec ma a := by
    intro a
    cases hl : objGet ma a.name with
    | none => simp [assetDescriptor, assetDescriptorSpec, hl, jsTruthy, jsStrOr]
    | some n =>
      have hne : n ≠ "" := hma (a.name, n) (objGet_eq_some_mem ma a.name n hl)
      simp [assetDescriptor, assetDescriptorSpec, hl, jsTruthy, jsStrOr, hne]
  rw [show assetDescriptor ma = assetDescriptorSpec ma from funext hpt]

/-- Witness for the C7 theorem: a chunk-referenced asset is skipped, a
registered module asset keeps its registered name, the rest pass through. -/
theorem asset_scan_descriptors_witness :
    (∀ p ∈ [("logo.png", "img/logo.png")], p.2 ≠ "")
    ∧ collectAssets [("logo.png", "img/logo.png")]
        [{ name := "main.js", chunks := [0] },
         { name := "logo.png", chunks := [] },
         { name := "extra.txt", chunks := [] }]
        (collectChunks defaultTransformExtensions
          [{ name := some "main", files := ["main.js"], initial := true }])
      = collectChunks defaultTransformExtensions
          [{ name := some "main", files := ["main.js"], initial := true }]
        ++ ([({ name := "main.js", chunks := [0] } : Asset),
             { name := "logo.png", chunks := [] },
             { name := "extra.txt", chunks := [] }]).filterMap
            (assetDescriptorSpec [("logo.png", "img/logo.png")]) :=
  ⟨by decide, asset_scan_descriptors _ (by decide) _ _⟩

theorem collectChunks_paths (te : String → Bool) (chunks : List Chunk) :
    (collectChunks te chunks).map FileDescriptor.path
      = (chunks.map Chunk.files).flatten := by
  rw [collectChunks_eq, List.map_flatten]
  congr 1
  rw [List.map_map]
  apply List.map_congr_left
  intro c _
  show List.map FileDescriptor.path (List.map (chunkFileDescriptor te c) c.files)
      = c.files
  rw [List.map_map]
  show List.map (fun p => p) c.files = c.files
  simp

theorem assetDescriptor_path (ma : List (String × String)) (a : Asset)
    (d : FileDescriptor) (h : assetDescriptor ma a = some d) :
    d.path = a.name := by
  simp only [assetDescriptor] at h
  split at h
  · injection h with h2
    rw [← h2]
  · split at h
    · exact absurd h (by simp)
    · injection h with h2
      rw [← h2]

theorem assetDescriptor_not_chunk (ma : List (String × String)) (a : Asset)
    (d : FileDescriptor) (h : assetDescriptor ma a = some d) :
    d.isChunk = false := by
  simp only [assetDescriptor] at h
  split at h
  · injection h with h2
    rw [← h2]
  · split at h
    · exact absurd h (by simp)
    · injection h with h2
      rw [← h2]

theorem filterMap_paths_sublist (ma : List (String × String)) :
    ∀ (assets : List Asset),
      ((assets.filterMap (assetDescriptor ma)).map FileDescriptor.path).Sublist
        (assets.map Asset.name)
  | [] => by simp
  | a :: as => by
    rw [List.filterMap_cons]
    cases hd : assetDescriptor ma a with
    | none =>
      simp only [List.map_cons]
      exact (filterMap_paths_sublist ma as).cons _
    | some d =>
      simp only [List.map_cons]
      rw [assetDescriptor_path ma a d hd]
      exact (filterMap_paths_sublist ma as).cons₂ _

theorem collectChunks_flags (te : String → Bool) (chunks : List Chunk) :
    ∀ f ∈ collectChunks te chunks, f.isModuleAsset = false := by
  rw [collectChunks_eq]
  intro f hf
  rcases List.mem_flatten.mp hf with ⟨l, hl, hfl⟩
  rcases List.mem_map.mp hl with ⟨c, _, rfl⟩
  rcases List.mem_map.mp hfl with ⟨p, _, rfl⟩
  rfl

theorem collection_covers_paths (te : String → Bool)
    (ma : List (String × String)) (chunks : List Chunk) (assets : List Asset)
    (h4 : ∀ a ∈ assets, 0 < a.chunks.length →
        a.name ∈ (chunks.map Chunk.files).flatten) :
    ∀ p ∈ (chunks.map Chunk.files).flatten ++ assets.map Asset.name,
      p ∈ (collectAssets ma assets (collectChunks te chunks)).map
        FileDescriptor.path := by
  rw [collectAssets_eq, List.map_append, collectChunks_paths]
  intro p hp
  rcases List.mem_append.mp hp with hp | hp
  · exact List.mem_append_left _ hp
  · rcases List.mem_map.mp hp with ⟨a, ha, rfl⟩
    have hemit : ∀ (hne : assetDescriptor ma a ≠ none),
        a.name ∈ (chunks.map Chunk.files).flatten
          ++ (assets.filterMap (assetDescriptor ma)).map FileDescriptor.path := by
      intro hne
      cases hdn : assetDescriptor ma a with
      | none => exact absurd hdn hne
      | some d =>
        apply List.mem_append_right
        exact List.mem_map.mpr
          ⟨d, List.mem_filterMap.mpr ⟨a, ha, hdn⟩, assetDescriptor_path ma a d hdn⟩
    by_cases ht : jsTruthy (objGet ma a.name) = true
    · exact hemit (by simp [assetDescriptor, ht])
    · have ht2 : jsTruthy (objGet ma a.name) = false := by simpa using ht
      by_cases hc : 0 < a.chunks.length
      · exact List.mem_append_left _ (h4 a ha hc)
      · exact hemit (by simp [assetDescriptor, ht2, hc])

/-- C9: after collection (chunk scan then asset scan, before
normalization), every physical output path — every chunk file and every
stats asset name — carries exactly one collected descriptor, and no
descriptor is at once a module-asset descriptor and a chunk descriptor —
given webpack's stats guarantees: chunk files pairwise distinct, asset
names pairwise distinct, any asset that coincides with a chunk file is a
chunk-referenced, unregistered asset, and any chunk-referenced asset's name
is among the chunk files. -/
theorem collection_unique_paths (te : String → Bool)
    (ma : List (String × String)) (chunks : List Chunk) (assets : List Asset)
    (h1 : ((chunks.map Chunk.files).flatten).Nodup)
    (h2 : (assets.map Asset.name).Nodup)
    (h3 : ∀ a ∈ assets, a.name ∈ (chunks.map Chunk.files).flatten →
        jsTruthy (objGet ma a.name) = false ∧ 0 < a.chunks.length)
    (h4 : ∀ a ∈ assets, 0 < a.chunks.length →
        a.name ∈ (chunks.map Chunk.files).flatten) :
    (∀ p ∈ (chunks.map Chunk.files).flatten ++ assets.map Asset.name,
        ((collectAssets ma assets (collectChunks te chunks)).map
            FileDescriptor.path).count p = 1)
    ∧ ((collectAssets ma assets (collectChunks te chunks)).map
        FileDescriptor.path).Nodup
    ∧ ∀ f ∈ collectAssets ma assets (collectChunks te chunks),
        ¬(f.isModuleAsset = true ∧ f.isChunk = true) := by
  have hnodup : ((collectAssets ma assets (collectChunks te chunks)).map
      FileDescriptor.path).Nodup := by
    rw [collectAssets_eq, List.map_append, List.nodup_append]
    refine ⟨?_, ?_, ?_⟩
    · rw [collectChunks_paths]
      exact h1
    · exact (filterMap_paths_sublist ma assets).nodup h2
    · intro x hx hx2
      rcases List.mem_map.mp hx2 with ⟨d, hd, rfl⟩
      rcases List.mem_filterMap.mp hd with ⟨a, ha, hda⟩
      have hpath : d.path = a.name := assetDescriptor_path ma a d hda
      rw [collectChunks_paths] at hx
      have h3' := h3 a ha (by rw [← hpath]; exact hx)
      have hnone : assetDescriptor ma a = none := by
        simp [assetDescriptor, h3'.1, h3'.2]
      rw [hnone] at hda
      exact absurd hda (by simp)
  refine ⟨?_, hnodup, ?_⟩
  · intro p hp
    exact List.count_eq_one_of_mem hnodup
      (collection_covers_paths te ma chunks assets h4 p hp)
  · rw [collectAssets_eq]
    intro f hf
    rcases List.mem_append.mp hf with hf | hf
    · have hflag := collectChunks_flags te chunks f hf
      simp [hflag]
    · rcases List.mem_filterMap.mp hf with ⟨a, ha, hda⟩
      have hflag := assetDescriptor_not_chunk ma a f hda
      simp [hflag]

/-- Witness for the C9 theorem at a one-chunk, two-asset build: the path
`main.js` (a chunk file that is also a chunk-referenced asset) has exactly
one collected descriptor. -/
theorem collection_unique_paths_witness :
    (([({ name := some "main", files := ["main.js"], initial := true } : Chunk)].map
        Chunk.files).flatten).Nodup
    ∧ (([({ name := "main.js", chunks := [0] } : Asset),
         { name := "logo.png", chunks := [] }]).map Asset.name).Nodup
    ∧ ((collectAssets [("logo.png", "img/logo.png")]
          [{ name := "main.js", chunks := [0] },
           { name := "logo.png", chunks := [] }]
          (collectChunks defaultTransformExtensions
            [{ name := some "main", files := ["main.js"], initial := true }])).map
        FileDescriptor.path).count "main.js" = 1 :=
  ⟨by decide, by decide,
   (collection_unique_paths defaultTransformExtensions
      [("logo.png", "img/logo.png")]
      [{ name := some "main", files := ["main.js"], initial := true }]
      [{ name := "main.js", chunks := [0] },
       { name := "logo.png", chunks := [] }]
      (by decide) (by decide) (by decide) (by decide)).1 "main.js" (by decide)⟩

theorem objGet_default_fold (k : String) (seed : Manifest)
    (files : List FileDescriptor) :
    objGet (files.foldl (fun m f => objSet m f.name f.path) seed) k
      = match (files.filter (fun f => f.name = k)).getLast? with
        | some f => some f.path
        | none => objGet seed k := by
  induction files using List.reverseRecOn with
  | nil => simp
  | append_singleton l f ih =>
    by_cases hf : f.name = k
    · have hkf : k = f.name := hf.symm
      simp only [List.foldl_append, List.foldl_cons, List.foldl_nil,
        objGet_objSet, if_pos hkf, List.filter_append]
      simp [hf, List.getLast?_concat]
    · have hkf : ¬(k = f.name) := fun h => hf h.symm
      simp only [List.foldl_append, List.foldl_cons, List.foldl_nil,
        objGet_objSet, if_neg hkf, List.filter_append]
      simp [hf, ih]

theorem objHas_objSet_mono (m : Manifest) (k v q : String)
    (h : objHas m q = true) : objHas (objSet m k v) q = true := by
  rw [objHas_eq_isSome] at h ⊢
  rw [objGet_objSet]
  by_cases hq : q = k
  · simp [hq]
  · simp only [if_neg hq]
    exact h

theorem objHas_foldl_mono :
    ∀ (files : List FileDescriptor) (m : Manifest) (q : String),
      objHas m q = true →
      objHas (files.foldl (fun m f => objSet m f.name f.path) m) q = true
  | [], _, _, h => h
  | f :: fs, m, q, h => by
    rw [List.foldl_cons]
    exact objHas_foldl_mono fs _ q (objHas_objSet_mono m f.name f.path q h)

theorem emitManifest_preserves_key (opts : Opts) (hg : opts.generate = none)
    (ma : List (String × String)) (m : Manifest) (b : Build) (q : String)
    (h : objHas m q = true) : objHas (emitManifest opts ma m b) q = true := by
  simp only [emitManifest, generateStep, hg]
  exact objHas_foldl_mono _ m q h

theorem runFold_preserves_key (opts : Opts) (hg : opts.generate = none) :
    ∀ (builds : List (List (String × String) × Build)) (m : Manifest)
      (q : String),
      objHas m q = true →
      objHas (builds.foldl (fun m p => emitManifest opts p.1 m p.2) m) q = true
  | [], _, _, h => h
  | b :: bs, m, q, h => by
    rw [List.foldl_cons]
    exact runFold_preserves_key opts hg bs _ q
      (emitManifest_preserves_key opts hg b.1 m b.2 q h)

theorem emitManifest_single (m : Manifest) (n f : String) (b : Bool)
    (hn : n ≠ "") (hh : strIncludes f "hot-update" = false) :
    emitManifest defaultOpts [] m (singleChunkBuild n f b)
      = objSet m (manifestKeyOf n f) (slashify f) := by
  simp [emitManifest, singleChunkBuild, collectChunks, collectAssets,
    postCollect, hotFilter, normalizeStage, transformPipeline, generateStep,
    defaultOpts, chunkFileDescriptor, manifestKeyOf, hn, hh, jsTruthy,
    List.foldl_cons, List.foldl_nil]

theorem runBuilds_singles_len :
    ∀ (specs : List (String × String × Bool)) (m : Manifest),
      (∀ s ∈ specs, s.1 ≠ "" ∧ strIncludes s.2.1 "hot-update" = false) →
      (∀ s ∈ specs, objHas m (manifestKeyOf s.1 s.2.1) = false) →
      (specs.map (fun s => manifestKeyOf s.1 s.2.1)).Nodup →
      specs.foldl
          (fun acc s =>
            emitManifest defaultOpts [] acc (singleChunkBuild s.1 s.2.1 s.2.2))
          m
        = m ++ specs.map (fun s => (manifestKeyOf s.1 s.2.1, slashify s.2.1))
  | [], m, _, _, _ => by simp
  | s :: ss, m, hs, hfr, hnd => by
    rw [List.foldl_cons,
      emitManifest_single m s.1 s.2.1 s.2.2
        (hs s (List.mem_cons_self _ _)).1 (hs s (List.mem_cons_self _ _)).2,
      objSet_fresh m _ _ (hfr s (List.mem_cons_self _ _))]
    rw [List.map_cons] at hnd
    rcases List.nodup_cons.mp hnd with ⟨hnotmem, hnd2⟩
    have hfr' : ∀ p ∈ ss,
        objHas (m ++ [(manifestKeyOf s.1 s.2.1, slashify s.2.1)])
          (manifestKeyOf p.1 p.2.1) = false := by
      intro p hp
      have hm := hfr p (List.mem_cons_of_mem _ hp)
      have hkx : ¬(manifestKeyOf s.1 s.2.1 = manifestKeyOf p.1 p.2.1) := by
        intro he
        apply hnotmem
        rw [he]
        exact List.mem_map_of_mem _ hp
      rw [objHas] at hm ⊢
      rw [List.any_append]
      simp [hm, hkx]
    rw [runBuilds_singles_len ss _
      (fun p hp => hs p (List.mem_cons_of_mem _ hp)) hfr' hnd2]
    simp

/-- C1: with no custom generator the manifest is the in-order fold of the
post-pipeline descriptors over the seed, assigning `manifest[name] = path`;
a duplicated name keeps the last descriptor's path; and N sequential
single-chunk builds with pairwise distinct manifest keys, folding into one
shared seed starting empty, leave exactly N entries. -/
theorem default_generate_fold_accumulation :
    (∀ (opts : Opts), opts.generate = none →
      ∀ (seed : Manifest) (files : List FileDescriptor),
        generateStep opts seed files
          = files.foldl (fun m f => objSet m f.name f.path) seed)
    ∧ (∀ (seed : Manifest) (files : List FileDescriptor) (k : String),
        objGet (files.foldl (fun m f => objSet m f.name f.path) seed) k
          = match (files.filter (fun f => f.name = k)).getLast? with
            | some f => some f.path
            | none => objGet seed k)
    ∧ (∀ (specs : List (String × String × Bool)),
        (specs.map (fun s => manifestKeyOf s.1 s.2.1)).Nodup →
        (∀ s ∈ specs, s.1 ≠ "" ∧ strIncludes s.2.1 "hot-update" = false) →
        (runBuilds defaultOpts
            (specs.map (fun s => ([], singleChunkBuild s.1 s.2.1 s.2.2)))).length
          = specs.length) := by
  refine ⟨?_, ?_, ?_⟩
  · intro opts hg seed files
    simp [generateStep, hg]
  · intro seed files k
    exact objGet_default_fold k seed files
  · intro specs hkeys hspec
    rw [runBuilds, List.foldl_map]
    dsimp only
    rw [show applySeed defaultOpts.seed = [] from rfl]
    rw [runBuilds_singles_len specs [] hspec (fun s _ => rfl) hkeys]
    simp

/-- Witness for the C1 theorem: two builds into one shared seed leave two
manifest entries. -/
theorem default_generate_fold_accumulation_witness :
    (([(("main-0" : String), ("main-0.js" : String), true),
       ("main-1", "main-1.js", true)].map
        (fun s => manifestKeyOf s.1 s.2.1)).Nodup)
    ∧ (runBuilds defaultOpts
        (([(("main-0" : String), ("main-0.js" : String), true),
           ("main-1", "main-1.js", true)]).map
          (fun s => ([], singleChunkBuild s.1 s.2.1 s.2.2)))).length = 2 :=
  ⟨by decide,
   default_generate_fold_accumulation.2.2
     [("main-0", "main-0.js", true), ("main-1", "main-1.js", true)]
     (by decide) (by decide)⟩

/-- C10: a falsy `seed` option yields the fresh empty object fixed once per
`apply`; the default fold only ever adds or overwrites keys, so a key
present in the shared manifest stays present through every later
compilation, whether or not the later builds emit the file again. -/
theorem falsy_seed_accumulates_across_compilations :
    applySeed SeedOption.falsy = []
    ∧ (∀ (opts : Opts), opts.generate = none →
        ∀ (ma : List (String × String)) (m : Manifest) (b : Build)
          (q : String),
          objHas m q = true → objHas (emitManifest opts ma m b) q = true)
    ∧ (∀ (opts : Opts), opts.generate = none →
        ∀ (builds more : List (List (String × String) × Build)) (q : String),
          objHas (runBuilds opts builds) q = true →
          objHas (runBuilds opts (builds ++ more)) q = true) := by
  refine ⟨rfl, ?_, ?_⟩
  · intro opts hg ma m b q h
    exact emitManifest_preserves_key opts hg ma m b q h
  · intro opts hg builds more q h
    rw [runBuilds, List.foldl_append]
    exact runFold_preserves_key opts hg more _ q h

/-- Witness for the C10 theorem: the `main.js` entry of a first build is
still in the manifest after a second build that does not emit it. -/
theorem falsy_seed_accumulates_across_compilations_witness :
    defaultOpts.generate = none
    ∧ objHas
        (runBuilds defaultOpts [([], singleChunkBuild "main" "main.js" true)])
        "main.js" = true
    ∧ objHas
        (runBuilds defaultOpts
          ([([], singleChunkBuild "main" "main.js" true)]
            ++ [([], singleChunkBuild "other" "other.js" true)]))
        "main.js" = true :=
  ⟨rfl, by decide,
   falsy_seed_accumulates_across_compilations.2.2 defaultOpts rfl
     [([], singleChunkBuild "main" "main.js" true)]
     [([], singleChunkBuild "other" "other.js" true)]
     "main.js" (by decide)⟩
